import Mathlib

/-!
Shallow embedding of the cazino prediction-market engine
(src/src/domain/models.rs, src/src/domain/parimutuel.rs,
src/src/domain/rules.rs, src/src/db/trait.rs, src/src/service.rs).

Conventions of the embedding:
* Rust `Uuid` values are modelled as `Nat` identifiers.
* Rust `i64` quantities (balances, pools, amounts) are modelled as `Int`;
  none of the verified claims concerns 64-bit overflow of these quantities,
  except the `i64` range check inside string parsing, which is modelled
  explicitly.
* Rust `f64` arithmetic is modelled as exact rational (`ℚ`) arithmetic;
  the `as i64` cast of a nonnegative in-range `f64` is truncation toward
  zero, modelled by `truncRat`.
* Rust `DateTime<Utc>` timestamps are opaque to every claim and are
  modelled as `Int`.
* Fallible Rust functions returning `Result`/`Option` are modelled with
  `Except`/`Option`.
-/

namespace Cazino

/-- Market status lifecycle (`MarketStatus` in models.rs). -/
inductive MarketStatus where
  | Draft
  | Open
  | Closed
  | Resolved
deriving DecidableEq

/-- Bet status lifecycle (`BetStatus` in models.rs). -/
inductive BetStatus where
  | Pending
  | Active
  | ResolvedYes
  | ResolvedNo
  | Challenged
deriving DecidableEq

/-- Betting side (`Side` in models.rs). -/
inductive Side where
  | Yes
  | No
deriving DecidableEq

/-- A prediction market (`Market` in models.rs). -/
structure Market where
  id : Nat
  name : String
  status : MarketStatus
  created_by : Nat
  opens_at : Int
  closes_at : Int
  starting_balance : Int
  invite_code : String
  created_at : Int
deriving DecidableEq

/-- A user in a market (`User` in models.rs). -/
structure User where
  id : Nat
  market_id : Nat
  device_id : String
  display_name : String
  avatar : String
  balance : Int
  is_admin : Bool
  joined_at : Int
deriving DecidableEq

/-- A prediction bet about a user (`Bet` in models.rs). -/
structure Bet where
  id : Nat
  market_id : Nat
  subject_user_id : Nat
  created_by : Nat
  description : String
  initial_odds : String
  status : BetStatus
  yes_pool : Int
  no_pool : Int
  hide_from_subject : Bool
  created_at : Int
  resolved_at : Option Int
deriving DecidableEq

/-- A wager on a bet (`Wager` in models.rs); `probability_after` is the
`f64` snapshot, modelled as `ℚ`. -/
structure Wager where
  id : Nat
  bet_id : Nat
  user_id : Nat
  side : Side
  amount : Int
  placed_at : Int
  yes_pool_after : Int
  no_pool_after : Int
  probability_after : ℚ
deriving DecidableEq

/-- View model of a bet with visibility filtering applied
(`BetView` in models.rs). -/
structure BetView where
  id : Nat
  market_id : Nat
  is_hidden : Bool
  subject_user_id : Option Nat
  description : Option String
  created_by : Nat
  initial_odds : String
  status : BetStatus
  yes_pool : Int
  no_pool : Int
  created_at : Int
  resolved_at : Option Int
deriving DecidableEq

/-- Rust `Bet::to_view` (models.rs): convert a bet to a view model for a
specific viewing user, hiding subject and description from the subject
while the bet is unresolved. -/
def Bet.to_view (b : Bet) (viewing_user_id : Nat) : BetView :=
  let is_hidden := b.hide_from_subject
      && b.subject_user_id == viewing_user_id
      && b.status != BetStatus.ResolvedYes
      && b.status != BetStatus.ResolvedNo
      && b.status != BetStatus.Challenged
  { id := b.id
    market_id := b.market_id
    is_hidden := is_hidden
    subject_user_id := if is_hidden then none else some b.subject_user_id
    description := if is_hidden then none else some b.description
    created_by := b.created_by
    initial_odds := b.initial_odds
    status := b.status
    yes_pool := b.yes_pool
    no_pool := b.no_pool
    created_at := b.created_at
    resolved_at := b.resolved_at }

/-- Truncation toward zero of a rational, the exact counterpart of Rust's
`as i64` cast applied to an in-range `f64` quotient. -/
def truncRat (q : ℚ) : Int := if q < 0 then -Int.floor (-q) else Int.floor q

/-- Rust `calculate_probability` (parimutuel.rs): YES% = yes / (yes + no),
defaulting to 1/2 when both pools are zero. `f64` modelled as `ℚ`. -/
def calculate_probability (yes_pool no_pool : Int) : ℚ :=
  if yes_pool + no_pool = 0 then 1/2
  else (yes_pool : ℚ) / ((yes_pool + no_pool : Int) : ℚ)

/-- Rust `calculate_potential_payout` (parimutuel.rs): hypothetical payout for a
wager if placed; returns (new yes pool, new no pool, potential payout). -/
def calculate_potential_payout (current_yes_pool current_no_pool : Int)
    (side : Side) (amount : Int) : Int × Int × Int :=
  let pools : Int × Int :=
    match side with
    | Side.Yes => (current_yes_pool + amount, current_no_pool)
    | Side.No => (current_yes_pool, current_no_pool + amount)
  let new_yes_pool := pools.1
  let new_no_pool := pools.2
  let total_pool := new_yes_pool + new_no_pool
  let winning_pool :=
    match side with
    | Side.Yes => new_yes_pool
    | Side.No => new_no_pool
  if winning_pool = 0 then (new_yes_pool, new_no_pool, 0)
  else (new_yes_pool, new_no_pool,
    truncRat ((amount : ℚ) / (winning_pool : ℚ) * (total_pool : ℚ)))

/-- The wagers lying on the winning side (the filter inside
`calculate_payouts`, parimutuel.rs). -/
def winningWagers (wagers : List Wager) (ws : Side) : List Wager :=
  wagers.filter (fun w => w.side == ws)

/-- A user's total contribution among a list of wagers (the per-user sum
accumulated in the `HashMap` of `calculate_payouts`, parimutuel.rs). -/
def userContribution (ws_wagers : List Wager) (u : Nat) : Int :=
  ((ws_wagers.filter (fun w => w.user_id == u)).map (fun w => w.amount)).sum

/-- The pool on a given side of a bet (the `winning_pool` selection in
`calculate_payouts`, parimutuel.rs). -/
def winningPool (ws : Side) (bet : Bet) : Int :=
  match ws with
  | Side.Yes => bet.yes_pool
  | Side.No => bet.no_pool

/-- Payout computation of `calculate_payouts` (parimutuel.rs) for a fixed
winning side. The Rust code groups winning-side wagers per user in a
`HashMap` (iteration order immaterial to every claim); here the distinct
user ids are listed by `List.dedup` and each is paired with the truncated
share `(contribution / winning_pool * total_pool) as i64`. -/
def calcPayoutsFor (ws : Side) (bet : Bet) (wagers : List Wager) :
    List (Nat × Int) :=
  if winningPool ws bet = 0 then []
  else
    (((winningWagers wagers ws).map (fun w => w.user_id)).dedup).map
      (fun u => (u,
        truncRat ((userContribution (winningWagers wagers ws) u : ℚ)
          / (winningPool ws bet : ℚ)
          * ((bet.yes_pool + bet.no_pool : Int) : ℚ))))

/-- Rust `calculate_payouts` (parimutuel.rs): actual payouts for all wagers on
a bet after resolution, as a list of (user id, payout amount). -/
def calculate_payouts (bet : Bet) (wagers : List Wager) : List (Nat × Int) :=
  match bet.status with
  | BetStatus.ResolvedYes => calcPayoutsFor Side.Yes bet wagers
  | BetStatus.ResolvedNo => calcPayoutsFor Side.No bet wagers
  | _ => []

/-- Rust `str::split(':')` on the character list of a string: splits at
every colon, keeping empty segments (so `""` gives one empty segment). -/
def splitColon : List Char → List (List Char)
  | [] => [[]]
  | c :: rest =>
    if c = ':' then [] :: splitColon rest
    else
      match splitColon rest with
      | [] => [[c]]
      | p :: ps => (c :: p) :: ps

/-- Value of a list of decimal digit characters, most significant first. -/
def digitsVal (ds : List Char) : Nat :=
  ds.foldl (fun acc c => acc * 10 + (c.toNat - 48)) 0

/-- The digit-run phase of Rust `i64::from_str`: one or more ASCII digits
whose signed value must fit in `i64` (otherwise the parse fails with
overflow). -/
def parseDigits (sign : Int) (ds : List Char) : Option Int :=
  if ds = [] then none
  else if ds.all Char.isDigit then
    if -(2 ^ 63) ≤ sign * (digitsVal ds : Int) ∧
        sign * (digitsVal ds : Int) ≤ 2 ^ 63 - 1
    then some (sign * (digitsVal ds : Int)) else none
  else none

/-- Rust `i64::from_str` on a character list: an optional single leading
`+`/`-` sign, then one or more ASCII digits, value within `i64` range. -/
def parseI64 : List Char → Option Int
  | [] => none
  | c :: rest =>
    if c = '+' then parseDigits 1 rest
    else if c = '-' then parseDigits (-1) rest
    else parseDigits 1 (c :: rest)

/-- Rust `parse_initial_odds` (parimutuel.rs): splits the odds label on `:`,
requires exactly two parts both parsing as nonzero `i64`, and on success
returns the pools `(opening_wager, 0)` — the ratio values are ignored. -/
def parse_initial_odds (odds : String) (opening_wager : Int) :
    Option (Int × Int) :=
  match splitColon odds.data with
  | [p₁, p₂] =>
    match parseI64 p₁ with
    | none => none
    | some yes_ratio =>
      match parseI64 p₂ with
      | none => none
      | some no_ratio =>
        if yes_ratio = 0 ∨ no_ratio = 0 then none
        else some (opening_wager, 0)
  | _ => none

/-- Rule violation cases (`RuleError` in rules.rs). -/
inductive RuleError where
  | MarketNotOpen
  | BetNotActive
  | InsufficientBalance (needed available : Int)
  | CannotBetOnSelf
  | AdminOnly
  | InvalidAmount (s : String)
  | AlreadyResolved
  | InvalidMarketStatus
deriving DecidableEq

/-- The `thiserror` display string of a `RuleError` (rules.rs). -/
def RuleError.message : RuleError → String
  | .MarketNotOpen => "Market is not open for betting"
  | .BetNotActive => "Bet is not active"
  | .InsufficientBalance needed available =>
      "Insufficient balance: need " ++ toString needed ++ ", have "
        ++ toString available
  | .CannotBetOnSelf => "Cannot bet on bets about yourself"
  | .AdminOnly => "Only admin can perform this action"
  | .InvalidAmount s => "Invalid wager amount: " ++ s
  | .AlreadyResolved => "Bet already resolved"
  | .InvalidMarketStatus => "Market not in correct status for this action"

/-- Rust `validate_wager` (rules.rs): market open, bet active, sufficient
balance, positive amount, and never on a bet about oneself. -/
def validate_wager (market : Market) (bet : Bet) (user : User)
    (amount : Int) : Except RuleError Unit :=
  if market.status ≠ MarketStatus.Open then .error .MarketNotOpen
  else if bet.status ≠ BetStatus.Active then .error .BetNotActive
  else if user.balance < amount then
    .error (.InsufficientBalance amount user.balance)
  else if amount ≤ 0 then
    .error (.InvalidAmount "Amount must be positive")
  else if bet.subject_user_id = user.id then .error .CannotBetOnSelf
  else .ok ()

/-- Rust `validate_bet_creation` (rules.rs): market Draft or Open, sufficient
balance, positive opening wager; the subject id is ignored. -/
def validate_bet_creation (market : Market) (user : User)
    (_subject_user_id : Nat) (opening_wager : Int) : Except RuleError Unit :=
  if market.status ≠ MarketStatus.Draft ∧ market.status ≠ MarketStatus.Open
  then .error .InvalidMarketStatus
  else if user.balance < opening_wager then
    .error (.InsufficientBalance opening_wager user.balance)
  else if opening_wager ≤ 0 then
    .error (.InvalidAmount "Opening wager must be positive")
  else .ok ()

/-- Rust `validate_bet_approval` (rules.rs): admin only. -/
def validate_bet_approval (user : User) : Except RuleError Unit :=
  if !user.is_admin then .error .AdminOnly else .ok ()

/-- Rust `validate_bet_resolution` (rules.rs): admin only, bet must be active,
already-resolved bets distinguished. -/
def validate_bet_resolution (_market : Market) (bet : Bet) (user : User) :
    Except RuleError Unit :=
  if !user.is_admin then .error .AdminOnly
  else if bet.status ≠ BetStatus.Active then
    if bet.status = BetStatus.ResolvedYes ∨ bet.status = BetStatus.ResolvedNo
    then .error .AlreadyResolved
    else .error .BetNotActive
  else .ok ()

/-- Storage failure kinds (`DbError` in db/trait.rs). -/
inductive DbError where
  | NotFound (s : String)
  | Internal (s : String)
  | Constraint (s : String)
deriving DecidableEq

/-- Rust `char::is_ascii_uppercase`. -/
def isAsciiUppercase (c : Char) : Bool := 'A' ≤ c && c ≤ 'Z'

/-- Rust `char::is_ascii_lowercase`. -/
def isAsciiLowercase (c : Char) : Bool := 'a' ≤ c && c ≤ 'z'

/-- Rust `char::is_ascii_digit`. -/
def isAsciiDigit (c : Char) : Bool := '0' ≤ c && c ≤ '9'

/-- Rust `char::is_ascii_alphanumeric`. -/
def isAsciiAlphanumeric (c : Char) : Bool :=
  isAsciiUppercase c || isAsciiLowercase c || isAsciiDigit c

/-- UTF-8 byte length of a character list (Rust `String::len` counts
bytes, not characters). -/
def utf8Len (l : List Char) : Nat := (l.map Char.utf8Size).sum

/-- The custom-invite-code filter applied by `create_market` (service.rs):
byte length exactly 6 and every character both ASCII-alphanumeric and
(ASCII-uppercase or ASCII-digit). -/
def custom_code_ok (code : String) : Bool :=
  utf8Len code.data == 6
    && code.data.all (fun c =>
      isAsciiAlphanumeric c && (isAsciiUppercase c || isAsciiDigit c))

/-- The unambiguous invite-code charset of `generate_invite_code`
(service.rs): `ABCDEFGHJKLMNPQRSTUVWXYZ23456789`. -/
def CHARSET : List Char := "ABCDEFGHJKLMNPQRSTUVWXYZ23456789".data

theorem CHARSET_length : CHARSET.length = 32 := by decide

/-- Rust `generate_invite_code` (service.rs): six characters drawn from
`CHARSET`. The random source is modelled by the function `pick` giving
the charset index chosen at each of the six positions. -/
def generate_invite_code (pick : Fin 6 → Fin 32) : String :=
  String.mk (((List.finRange 6).map
    (fun i => CHARSET.get (Fin.cast CHARSET_length.symm (pick i)))))

/-- The invite-code selection of `create_market` (service.rs): a supplied
custom code passing `custom_code_ok` is used as is, any other supplied
code is discarded and the generated code is used, as is when no custom
code is supplied. -/
def choose_invite_code (custom : Option String) (generated : String) :
    String :=
  match custom with
  | some code => if custom_code_ok code then code else generated
  | none => generated

/-- Everything `create_bet` (service.rs) persists on success: the bet row,
the creator's synthetic opening wager row, and the creator's updated
balance. -/
structure CreateBetResult where
  bet : Bet
  opening_wager_record : Wager
  creator_new_balance : Int
deriving DecidableEq

/-- Rust `CazinoService::create_bet` (service.rs). The market and creator rows
returned by the storage lookups are passed directly; the fresh ids and
the current time, produced effectfully in Rust, are parameters. On
success the function yields exactly the rows the Rust code persists. -/
def create_bet (market : Market) (creator : User) (bet_id wager_id : Nat)
    (subject_user_id : Nat) (description : String) (initial_odds : String)
    (opening_wager : Int) (hide_from_subject : Bool) (now : Int) :
    Except DbError CreateBetResult :=
  match validate_bet_creation market creator subject_user_id opening_wager with
  | .error e => .error (.Constraint e.message)
  | .ok _ =>
    match parse_initial_odds initial_odds opening_wager with
    | none => .error (.Constraint "Invalid odds format")
    | some pools =>
      let yes_pool := pools.1
      let no_pool := pools.2
      let bet : Bet :=
        { id := bet_id
          market_id := market.id
          subject_user_id := subject_user_id
          created_by := creator.id
          description := description
          initial_odds := initial_odds
          status := BetStatus.Active
          yes_pool := yes_pool
          no_pool := no_pool
          hide_from_subject := hide_from_subject
          created_at := now
          resolved_at := none }
      let opening_wager_record : Wager :=
        { id := wager_id
          bet_id := bet_id
          user_id := creator.id
          side := Side.Yes
          amount := opening_wager
          placed_at := now
          yes_pool_after := yes_pool
          no_pool_after := no_pool
          probability_after := calculate_probability yes_pool no_pool }
      .ok { bet := bet
            opening_wager_record := opening_wager_record
            creator_new_balance := creator.balance - opening_wager }

/-- The new-user row built inside `CazinoService::join_market`
(service.rs): fresh id, the market's starting balance, non-admin. -/
def mkJoinUser (market : Market) (new_user_id : Nat)
    (device_id display_name avatar : String) (now : Int) : User :=
  { id := new_user_id
    market_id := market.id
    device_id := device_id
    display_name := display_name
    avatar := avatar
    balance := market.starting_balance
    is_admin := false
    joined_at := now }

/-- Rust `CazinoService::join_market` (service.rs). The storage collaborator's
responses are passed as parameters: `marketRes` is the invite-code lookup,
`existingUserRes` the `(market id, device id)` user lookup, and
`createUserRes` the row returned when persisting a new user. The Rust
code matches the lookup with `if let Ok(..)`, so ANY lookup failure falls
through to creating a fresh user. -/
def join_market (marketRes : Except DbError Market)
    (existingUserRes : Market → Except DbError User)
    (createUserRes : User → Except DbError User)
    (new_user_id : Nat) (device_id display_name avatar : String)
    (now : Int) : Except DbError (Market × User) :=
  match marketRes with
  | .error e => .error e
  | .ok market =>
    match existingUserRes market with
    | .ok existing_user => .ok (market, existing_user)
    | .error _ =>
      match createUserRes
          (mkJoinUser market new_user_id device_id display_name avatar now) with
      | .error e => .error e
      | .ok created => .ok (market, created)

/-- Rust `CazinoService::approve_bet` (service.rs). `adminRes` is the storage
lookup of the caller; `bet` is the stored bet row the operation acts on.
Returns the operation result together with the stored bet row afterwards
(unchanged on failure, status forced to Active on success). -/
def approve_bet (adminRes : Except DbError User) (bet : Bet) :
    Except DbError Bet × Bet :=
  match adminRes with
  | .error e => (.error e, bet)
  | .ok admin =>
    match validate_bet_approval admin with
    | .error e => (.error (.Constraint e.message), bet)
    | .ok _ =>
      let updated := { bet with status := BetStatus.Active }
      (.ok updated, updated)

/-! ### Concrete fixtures used by witnesses and counterexamples -/

/-- An open market fixture. -/
def market0 : Market :=
  { id := 1, name := "m", status := MarketStatus.Open, created_by := 2,
    opens_at := 0, closes_at := 24, starting_balance := 1000,
    invite_code := "ABC234", created_at := 0 }

/-- An admin user fixture with id 3 and balance 100. -/
def user0 : User :=
  { id := 3, market_id := 1, device_id := "dev", display_name := "u",
    avatar := "a", balance := 100, is_admin := true, joined_at := 0 }

/-- An active bet fixture whose subject is `user0`. -/
def bet0 : Bet :=
  { id := 4, market_id := 1, subject_user_id := 3, created_by := 2,
    description := "b", initial_odds := "1:1", status := BetStatus.Active,
    yes_pool := 10, no_pool := 0, hide_from_subject := false,
    created_at := 0, resolved_at := none }

/-! ### Claim theorems -/

/-- C1: whenever the bet's subject is the wagering user, `validate_wager`
returns an error whatever the market, bet status, amount or the user's
admin flag; and when the market is Open, the bet Active, and the amount
positive and within balance, that error is `CannotBetOnSelf`. -/
theorem validate_wager_rejects_self (market : Market) (bet : Bet)
    (user : User) (amount : Int) (hself : bet.subject_user_id = user.id) :
    (∃ e, validate_wager market bet user amount = Except.error e) ∧
    (market.status = MarketStatus.Open → bet.status = BetStatus.Active →
      0 < amount → amount ≤ user.balance →
      validate_wager market bet user amount =
        Except.error RuleError.CannotBetOnSelf) := by
  constructor
  · cases hv : validate_wager market bet user amount with
    | error e => exact ⟨e, rfl⟩
    | ok u =>
      exfalso
      unfold validate_wager at hv
      rw [if_pos hself] at hv
      split_ifs at hv
  · intro hs hb ha hbal
    unfold validate_wager
    rw [if_neg (not_not_intro hs), if_neg (not_not_intro hb),
      if_neg (not_lt.mpr hbal), if_neg (not_le.mpr ha), if_pos hself]

/-- C1 witness: the concrete admin `user0` wagering 5 on the active bet
about themselves in the open market is rejected with `CannotBetOnSelf`. -/
theorem validate_wager_rejects_self_witness :
    validate_wager market0 bet0 user0 5 =
      Except.error RuleError.CannotBetOnSelf :=
  (validate_wager_rejects_self market0 bet0 user0 5 rfl).2 rfl rfl
    (by decide) (by decide)

/-- C3: `to_view` hides exactly when the bet is flagged hide-from-subject,
the viewer is the subject, and the status is none of ResolvedYes,
ResolvedNo, Challenged; hiding redacts exactly the subject id and the
description, and every other field always equals the bet's. -/
theorem to_view_spec (b : Bet) (viewer : Nat) :
    ((b.to_view viewer).is_hidden = true ↔
      (b.hide_from_subject = true ∧ viewer = b.subject_user_id ∧
        b.status ≠ BetStatus.ResolvedYes ∧ b.status ≠ BetStatus.ResolvedNo ∧
        b.status ≠ BetStatus.Challenged)) ∧
    ((b.to_view viewer).is_hidden = true →
      (b.to_view viewer).subject_user_id = none ∧
        (b.to_view viewer).description = none) ∧
    ((b.to_view viewer).is_hidden = false →
      (b.to_view viewer).subject_user_id = some b.subject_user_id ∧
        (b.to_view viewer).description = some b.description) ∧
    ((b.to_view viewer).id = b.id ∧
      (b.to_view viewer).market_id = b.market_id ∧
      (b.to_view viewer).created_by = b.created_by ∧
      (b.to_view viewer).initial_odds = b.initial_odds ∧
      (b.to_view viewer).status = b.status ∧
      (b.to_view viewer).yes_pool = b.yes_pool ∧
      (b.to_view viewer).no_pool = b.no_pool ∧
      (b.to_view viewer).created_at = b.created_at ∧
      (b.to_view viewer).resolved_at = b.resolved_at) := by
  have hid : (b.to_view viewer).is_hidden
      = (b.hide_from_subject && b.subject_user_id == viewer
        && b.status != BetStatus.ResolvedYes
        && b.status != BetStatus.ResolvedNo
        && b.status != BetStatus.Challenged) := rfl
  have hsub : (b.to_view viewer).subject_user_id
      = (if (b.to_view viewer).is_hidden then none
         else some b.subject_user_id) := rfl
  have hdesc : (b.to_view viewer).description
      = (if (b.to_view viewer).is_hidden then none
         else some b.description) := rfl
  refine ⟨?_, ?_, ?_, ?_⟩
  · rw [hid]
    simp only [Bool.and_eq_true, beq_iff_eq, bne_iff_ne]
    constructor
    · rintro ⟨⟨⟨⟨h1, h2⟩, h3⟩, h4⟩, h5⟩
      exact ⟨h1, h2.symm, h3, h4, h5⟩
    · rintro ⟨h1, h2, h3, h4, h5⟩
      exact ⟨⟨⟨⟨h1, h2.symm⟩, h3⟩, h4⟩, h5⟩
  · intro hh
    rw [hsub, hdesc, hh]
    simp
  · intro hh
    rw [hsub, hdesc, hh]
    simp
  · exact ⟨rfl, rfl, rfl, rfl, rfl, rfl, rfl, rfl, rfl⟩

/-- C3 witness: the hidden-flagged active bet about user 3 is redacted for
viewer 3 and fully visible for viewer 7. -/
theorem to_view_spec_witness :
    (({ bet0 with hide_from_subject := true } : Bet).to_view 3).is_hidden
        = true ∧
    (({ bet0 with hide_from_subject := true } : Bet).to_view 3).description
        = none ∧
    (({ bet0 with hide_from_subject := true } : Bet).to_view 7).description
        = some "b" := by
  refine ⟨?_, ?_, ?_⟩
  · exact (to_view_spec { bet0 with hide_from_subject := true } 3).1.mpr
      ⟨rfl, rfl, by decide, by decide, by decide⟩
  · exact ((to_view_spec { bet0 with hide_from_subject := true } 3).2.1
      ((to_view_spec { bet0 with hide_from_subject := true } 3).1.mpr
        ⟨rfl, rfl, by decide, by decide, by decide⟩)).2
  · exact ((to_view_spec { bet0 with hide_from_subject := true } 7).2.2.1
      (by decide)).2

/-- C4: with nonnegative pools the probability always lies in [0, 1];
it is exactly 1/2 at (0, 0), exactly 1 at (y, 0) for positive y, and
exactly 0 at (0, n) for positive n. -/
theorem calculate_probability_spec (y n : Int) (hy : 0 ≤ y) (hn : 0 ≤ n) :
    0 ≤ calculate_probability y n ∧ calculate_probability y n ≤ 1 ∧
    calculate_probability 0 0 = 1/2 ∧
    (0 < y → calculate_probability y 0 = 1) ∧
    (0 < n → calculate_probability 0 n = 0) := by
  refine ⟨?_, ?_, ?_, ?_, ?_⟩
  · unfold calculate_probability
    split_ifs with h
    · norm_num
    · apply div_nonneg (by exact_mod_cast hy)
      have : (0 : Int) ≤ y + n := by omega
      exact_mod_cast this
  · unfold calculate_probability
    split_ifs with h
    · norm_num
    · have hpos : (0 : Int) < y + n := by omega
      rw [div_le_one (by exact_mod_cast hpos)]
      have : y ≤ y + n := by omega
      exact_mod_cast this
  · norm_num [calculate_probability]
  · intro hy0
    unfold calculate_probability
    rw [if_neg (by omega)]
    push_cast
    rw [add_zero, div_self (by exact_mod_cast hy0.ne')]
  · intro hn0
    unfold calculate_probability
    rw [if_neg (by omega)]
    push_cast
    rw [zero_div]

/-- C4 witness: at pools (3, 1) the probability is within [0, 1], and the
corner cases evaluate as claimed. -/
theorem calculate_probability_spec_witness :
    (0 ≤ calculate_probability 3 1 ∧ calculate_probability 3 1 ≤ 1) ∧
    calculate_probability 0 0 = 1/2 ∧ calculate_probability 3 0 = 1 ∧
    calculate_probability 0 1 = 0 := by
  have h := calculate_probability_spec 3 1 (by decide) (by decide)
  have h30 := calculate_probability_spec 3 0 (by decide) (by decide)
  have h01 := calculate_probability_spec 0 1 (by decide) (by decide)
  exact ⟨⟨h.1, h.2.1⟩, h.2.2.1, h30.2.2.2.1 (by decide),
    h01.2.2.2.2 (by decide)⟩

/-- C7: `calculate_payouts` is total (the embedding is a total function:
no division is ever evaluated with a zero winning pool) and returns the
empty list on every unresolved bet and on every resolved bet whose
winning-side pool is zero. -/
theorem calculate_payouts_empty_cases (bet : Bet) (wagers : List Wager) :
    (bet.status ≠ BetStatus.ResolvedYes ∧ bet.status ≠ BetStatus.ResolvedNo →
      calculate_payouts bet wagers = []) ∧
    (bet.status = BetStatus.ResolvedYes ∧ bet.yes_pool = 0 →
      calculate_payouts bet wagers = []) ∧
    (bet.status = BetStatus.ResolvedNo ∧ bet.no_pool = 0 →
      calculate_payouts bet wagers = []) := by
  cases hb : bet.status <;>
    simp_all [calculate_payouts, calcPayoutsFor, winningPool]

/-- C7 witness: a Pending bet yields no payouts, and the zero-pool
resolved bet yields no payouts. -/
theorem calculate_payouts_empty_cases_witness :
    calculate_payouts { bet0 with status := BetStatus.Pending } [] = [] ∧
    calculate_payouts
      { bet0 with status := BetStatus.ResolvedYes, yes_pool := 0 } [] = [] := by
  constructor
  · exact (calculate_payouts_empty_cases
      { bet0 with status := BetStatus.Pending } []).1 ⟨by decide, by decide⟩
  · exact (calculate_payouts_empty_cases
      { bet0 with status := BetStatus.ResolvedYes, yes_pool := 0 } []).2.1
      ⟨rfl, rfl⟩

/-- C10: `approve_bet` applies no precondition on the bet's status — any
admin caller forces any stored bet (even a resolved one) to Active, and a
non-admin caller gets a constraint error with the bet unchanged. -/
theorem approve_bet_no_status_precondition (admin : User) (bet : Bet) :
    (admin.is_admin = true →
      approve_bet (Except.ok admin) bet
        = (Except.ok ({ bet with status := BetStatus.Active } : Bet),
           ({ bet with status := BetStatus.Active } : Bet))) ∧
    (admin.is_admin = false →
      approve_bet (Except.ok admin) bet
        = (Except.error (DbError.Constraint
            "Only admin can perform this action"), bet)) := by
  constructor
  · intro h
    simp [approve_bet, validate_bet_approval, h]
  · intro h
    simp [approve_bet, validate_bet_approval, h, RuleError.message]

/-- C10 witness: the admin `user0` moves the ResolvedYes bet back to
Active; the non-admin variant is rejected and the bet stays ResolvedYes. -/
theorem approve_bet_no_status_precondition_witness :
    approve_bet (Except.ok user0)
        ({ bet0 with status := BetStatus.ResolvedYes } : Bet)
      = (Except.ok ({ bet0 with status := BetStatus.Active } : Bet),
         ({ bet0 with status := BetStatus.Active } : Bet)) ∧
    approve_bet (Except.ok ({ user0 with is_admin := false } : User))
        ({ bet0 with status := BetStatus.ResolvedYes } : Bet)
      = (Except.error (DbError.Constraint
          "Only admin can perform this action"),
         ({ bet0 with status := BetStatus.ResolvedYes } : Bet)) := by
  constructor
  · exact (approve_bet_no_status_precondition user0
      ({ bet0 with status := BetStatus.ResolvedYes } : Bet)).1 rfl
  · exact (approve_bet_no_status_precondition
      ({ user0 with is_admin := false } : User)
      ({ bet0 with status := BetStatus.ResolvedYes } : Bet)).2 rfl

/-- C9 counterexample: when the existing-user lookup fails with an
Internal storage error, `join_market` does NOT return that error — it
silently creates and returns a fresh user instead, so the claimed
propagation of Internal lookup failures is false. -/
theorem join_market_swallows_internal_error :
    join_market (Except.ok market0)
        (fun _ => Except.error (DbError.Internal "db down"))
        (fun u => Except.ok u) 9 "dev2" "nm" "av" 0
      = Except.ok (market0, mkJoinUser market0 9 "dev2" "nm" "av" 0) ∧
    join_market (Except.ok market0)
        (fun _ => Except.error (DbError.Internal "db down"))
        (fun u => Except.ok u) 9 "dev2" "nm" "av" 0
      ≠ Except.error (DbError.Internal "db down") := by
  refine ⟨rfl, ?_⟩
  intro h
  exact Except.noConfusion h

/-- C9 amended: `join_market` propagates a failed invite-code market
lookup unchanged and propagates a failed user insertion unchanged, but a
failure of the existing-user lookup — NotFound and Internal alike — is
swallowed: the operation falls through to creating a fresh user. -/
theorem join_market_error_propagation
    (existingUserRes : Market → Except DbError User)
    (createUserRes : User → Except DbError User)
    (uid : Nat) (dev nm av : String) (now : Int) :
    (∀ e, join_market (Except.error e) existingUserRes createUserRes
      uid dev nm av now = Except.error e) ∧
    (∀ market u, existingUserRes market = Except.ok u →
      join_market (Except.ok market) existingUserRes createUserRes
        uid dev nm av now = Except.ok (market, u)) ∧
    (∀ market e u, existingUserRes market = Except.error e →
      createUserRes (mkJoinUser market uid dev nm av now) = Except.ok u →
      join_market (Except.ok market) existingUserRes createUserRes
        uid dev nm av now = Except.ok (market, u)) ∧
    (∀ market e e', existingUserRes market = Except.error e →
      createUserRes (mkJoinUser market uid dev nm av now)
        = Except.error e' →
      join_market (Except.ok market) existingUserRes createUserRes
        uid dev nm av now = Except.error e') := by
  refine ⟨fun e => rfl, ?_, ?_, ?_⟩
  · intro market u h
    simp [join_market, h]
  · intro market e u h1 h2
    simp [join_market, h1, h2]
  · intro market e e' h1 h2
    simp [join_market, h1, h2]

/-- C9 amended witness: concrete runs of the three propagation shapes. -/
theorem join_market_error_propagation_witness :
    join_market (Except.error (DbError.Internal "boom"))
        (fun _ => Except.error (DbError.NotFound "nf")) Except.ok
        9 "d2" "n" "a" 0
      = Except.error (DbError.Internal "boom") ∧
    join_market (Except.ok market0)
        (fun _ => Except.error (DbError.NotFound "nf")) Except.ok
        9 "d2" "n" "a" 0
      = Except.ok (market0, mkJoinUser market0 9 "d2" "n" "a" 0) ∧
    join_market (Except.ok market0)
        (fun _ => Except.error (DbError.NotFound "nf"))
        (fun _ => Except.error (DbError.Internal "insert failed"))
        9 "d2" "n" "a" 0
      = Except.error (DbError.Internal "insert failed") := by
  refine ⟨?_, ?_, ?_⟩
  · exact (join_market_error_propagation _ _ 9 "d2" "n" "a" 0).1
      (DbError.Internal "boom")
  · exact (join_market_error_propagation _ _ 9 "d2" "n" "a" 0).2.2.1
      market0 (DbError.NotFound "nf") _ rfl rfl
  · exact (join_market_error_propagation _ _ 9 "d2" "n" "a" 0).2.2.2
      market0 (DbError.NotFound "nf") (DbError.Internal "insert failed")
      rfl rfl

/-- Helper: whenever `parse_initial_odds` accepts, the returned pools are
exactly `(opening wager, 0)`, whatever the ratio label said. -/
theorem parse_initial_odds_some (odds : String) (w : Int) (p : Int × Int)
    (h : parse_initial_odds odds w = some p) : p = (w, 0) := by
  unfold parse_initial_odds at h
  split at h
  · split at h
    · simp at h
    · split at h
      · simp at h
      · split_ifs at h
        exact (Option.some.inj h).symm
  · simp at h

/-- C5: every successful `create_bet` with opening wager `w` persists an
Active bet with pools `(w, 0)` regardless of the odds label, records the
creator's synthetic YES opening wager with snapshot `(w, 0)` and
probability `calculate_probability w 0`, debits exactly `w` from the
creator, and applies no self-check: success is preserved under replacing
the subject by anyone, including the creator. -/
theorem create_bet_success_spec (market : Market) (creator : User)
    (bet_id wager_id subject : Nat) (description odds : String)
    (w : Int) (hide : Bool) (now : Int) (r : CreateBetResult)
    (h : create_bet market creator bet_id wager_id subject description
      odds w hide now = Except.ok r) :
    r.bet.status = BetStatus.Active ∧
    r.bet.yes_pool = w ∧ r.bet.no_pool = 0 ∧
    r.bet.subject_user_id = subject ∧
    r.opening_wager_record.user_id = creator.id ∧
    r.opening_wager_record.side = Side.Yes ∧
    r.opening_wager_record.amount = w ∧
    r.opening_wager_record.yes_pool_after = w ∧
    r.opening_wager_record.no_pool_after = 0 ∧
    r.opening_wager_record.probability_after = calculate_probability w 0 ∧
    r.creator_new_balance = creator.balance - w ∧
    (∀ subject', ∃ r', create_bet market creator bet_id wager_id subject'
      description odds w hide now = Except.ok r') := by
  unfold create_bet at h
  rcases hval : validate_bet_creation market creator subject w with e | u
  · rw [hval] at h
    exact Except.noConfusion h
  · rw [hval] at h
    rcases hparse : parse_initial_odds odds w with _ | pools
    · rw [hparse] at h
      exact Except.noConfusion h
    · rw [hparse] at h
      have hp := parse_initial_odds_some odds w pools hparse
      subst hp
      have hr := Except.ok.inj h
      subst hr
      refine ⟨rfl, rfl, rfl, rfl, rfl, rfl, rfl, rfl, rfl, rfl, rfl, ?_⟩
      intro subject'
      have hval' : validate_bet_creation market creator subject' w
          = Except.ok u := hval
      exact ⟨_, by unfold create_bet; rw [hval', hparse]⟩

/-- The record `create_bet` returns on the concrete witness call. -/
def createBetOk : CreateBetResult :=
  { bet :=
      { id := 10, market_id := 1, subject_user_id := 3, created_by := 3,
        description := "d", initial_odds := "1:1",
        status := BetStatus.Active, yes_pool := 100, no_pool := 0,
        hide_from_subject := false, created_at := 0, resolved_at := none }
    opening_wager_record :=
      { id := 11, bet_id := 10, user_id := 3, side := Side.Yes,
        amount := 100, placed_at := 0, yes_pool_after := 100,
        no_pool_after := 0,
        probability_after := calculate_probability 100 0 }
    creator_new_balance := 0 }

/-- C5 witness: `user0` (id 3) creates, with odds label "1:1" and opening
wager 100, a bet about themselves; the call succeeds and persists pools
(100, 0), an opening YES wager, and balance 100 - 100. -/
theorem create_bet_success_spec_witness :
    create_bet market0 user0 10 11 3 "d" "1:1" 100 false 0
      = Except.ok createBetOk ∧
    createBetOk.bet.status = BetStatus.Active ∧
    createBetOk.bet.yes_pool = 100 ∧
    createBetOk.creator_new_balance = user0.balance - 100 := by
  have h : create_bet market0 user0 10 11 3 "d" "1:1" 100 false 0
      = Except.ok createBetOk := rfl
  have hs := create_bet_success_spec market0 user0 10 11 3 "d" "1:1" 100
    false 0 createBetOk h
  exact ⟨h, hs.1, hs.2.1, hs.2.2.2.2.2.2.2.2.2.2.1⟩

/-- The amended grammar for one odds-ratio part: an optional single
leading sign, a nonempty run of ASCII digits, and a value within the
signed 64-bit range — `v` is the signed value the part denotes. -/
def I64Lit (s : List Char) (v : Int) : Prop :=
  ∃ ds : List Char, ds ≠ [] ∧ (∀ c ∈ ds, c.isDigit = true) ∧
    ((s = ds ∧ v = (digitsVal ds : Int)) ∨
     (s = '+' :: ds ∧ v = (digitsVal ds : Int)) ∨
     (s = '-' :: ds ∧ v = -(digitsVal ds : Int))) ∧
    -(2 ^ 63) ≤ v ∧ v ≤ 2 ^ 63 - 1

/-- Helper: `parseDigits` succeeds exactly on nonempty all-digit runs
whose signed value is in `i64` range. -/
theorem parseDigits_eq_some_iff (sign : Int) (ds : List Char) (v : Int) :
    parseDigits sign ds = some v ↔
      ds ≠ [] ∧ (∀ c ∈ ds, c.isDigit = true) ∧
        v = sign * (digitsVal ds : Int) ∧
        -(2 ^ 63) ≤ v ∧ v ≤ 2 ^ 63 - 1 := by
  unfold parseDigits
  split_ifs with h1 h2 h3
  · simp [h1]
  · constructor
    · intro h
      have hv := Option.some.inj h
      exact ⟨h1, List.all_eq_true.mp h2, hv.symm, hv ▸ h3.1, hv ▸ h3.2⟩
    · rintro ⟨_, _, hv, _⟩
      rw [hv]
  · constructor
    · intro h
      exact h.elim
    · rintro ⟨_, _, hv, hlo, hhi⟩
      exact absurd ⟨hv ▸ hlo, hv ▸ hhi⟩ h3
  · constructor
    · intro h
      exact h.elim
    · rintro ⟨_, hdig, _⟩
      exact absurd (List.all_eq_true.mpr hdig) h2

/-- Helper: `parseI64` accepts exactly the strings of the amended
signed-integer grammar, returning the denoted value. -/
theorem parseI64_eq_some_iff (s : List Char) (v : Int) :
    parseI64 s = some v ↔ I64Lit s v := by
  cases s with
  | nil =>
    constructor
    · intro h
      exact (Option.noConfusion h : False).elim
    · rintro ⟨ds, hne, _, (⟨hs, _⟩ | ⟨hs, _⟩ | ⟨hs, _⟩), _⟩
      · exact absurd hs.symm hne
      · exact List.noConfusion hs
      · exact List.noConfusion hs
  | cons c rest =>
    show (if c = '+' then parseDigits 1 rest
      else if c = '-' then parseDigits (-1) rest
      else parseDigits 1 (c :: rest)) = some v ↔ I64Lit (c :: rest) v
    by_cases hplus : c = '+'
    · subst hplus
      rw [if_pos rfl, parseDigits_eq_some_iff]
      constructor
      · rintro ⟨hne, hdig, hv, hlo, hhi⟩
        exact ⟨rest, hne, hdig, Or.inr (Or.inl ⟨rfl, by rw [hv, one_mul]⟩),
          hlo, hhi⟩
      · rintro ⟨ds, hne, hdig, (⟨hs, hv⟩ | ⟨hs, hv⟩ | ⟨hs, hv⟩), hlo, hhi⟩
        · have hd : Char.isDigit '+' = true :=
            hdig '+' (hs ▸ List.mem_cons_self _ _)
          exact absurd hd (by decide)
        · obtain rfl := (List.cons.inj hs).2
          exact ⟨hne, hdig, by rw [hv, one_mul], hlo, hhi⟩
        · exact absurd (List.cons.inj hs).1 (by decide)
    · rw [if_neg hplus]
      by_cases hminus : c = '-'
      · subst hminus
        rw [if_pos rfl, parseDigits_eq_some_iff]
        constructor
        · rintro ⟨hne, hdig, hv, hlo, hhi⟩
          exact ⟨rest, hne, hdig,
            Or.inr (Or.inr ⟨rfl, by rw [hv]; ring⟩), hlo, hhi⟩
        · rintro ⟨ds, hne, hdig, (⟨hs, hv⟩ | ⟨hs, hv⟩ | ⟨hs, hv⟩), hlo, hhi⟩
          · have hd : Char.isDigit '-' = true :=
              hdig '-' (hs ▸ List.mem_cons_self _ _)
            exact absurd hd (by decide)
          · exact absurd (List.cons.inj hs).1 (by decide)
          · obtain rfl := (List.cons.inj hs).2
            exact ⟨hne, hdig, by rw [hv]; ring, hlo, hhi⟩
      · rw [if_neg hminus, parseDigits_eq_some_iff]
        constructor
        · rintro ⟨hne, hdig, hv, hlo, hhi⟩
          exact ⟨c :: rest, hne, hdig, Or.inl ⟨rfl, by rw [hv, one_mul]⟩,
            hlo, hhi⟩
        · rintro ⟨ds, hne, hdig, (⟨hs, hv⟩ | ⟨hs, hv⟩ | ⟨hs, hv⟩), hlo, hhi⟩
          · subst hs
            exact ⟨hne, hdig, by rw [hv, one_mul], hlo, hhi⟩
          · exact absurd (List.cons.inj hs).1 hplus
          · exact absurd (List.cons.inj hs).1 hminus

/-- Helper: full characterization of `parse_initial_odds`: it returns
`some p` exactly when `p = (opening wager, 0)` and the label splits into
two parts both parsing as nonzero `i64` values. -/
theorem parse_initial_odds_eq_some_iff (odds : String) (w : Int)
    (p : Int × Int) :
    parse_initial_odds odds w = some p ↔
      p = (w, 0) ∧ ∃ a b y n, splitColon odds.data = [a, b] ∧
        parseI64 a = some y ∧ parseI64 b = some n ∧ y ≠ 0 ∧ n ≠ 0 := by
  unfold parse_initial_odds
  split
  next a b heq =>
    split
    next hya =>
      constructor
      · intro h
        simp at h
      · rintro ⟨-, a', b', y, n, hab, hya', -⟩
        obtain ⟨rfl, rfl⟩ : a = a' ∧ b = b' := by
          have h1 := List.cons.inj (heq.symm.trans hab)
          exact ⟨h1.1, (List.cons.inj h1.2).1⟩
        rw [hya] at hya'
        simp at hya'
    next y hya =>
      split
      next hyb =>
        constructor
        · intro h
          simp at h
        · rintro ⟨-, a', b', y', n', hab, -, hyb', -⟩
          obtain ⟨rfl, rfl⟩ : a = a' ∧ b = b' := by
            have h1 := List.cons.inj (heq.symm.trans hab)
            exact ⟨h1.1, (List.cons.inj h1.2).1⟩
          rw [hyb] at hyb'
          simp at hyb'
      next n hyb =>
        split_ifs with hz
        · constructor
          · intro h
            simp at h
          · rintro ⟨-, a', b', y', n', hab, hya', hyb', hy0, hn0⟩
            obtain ⟨rfl, rfl⟩ : a = a' ∧ b = b' := by
              have h1 := List.cons.inj (heq.symm.trans hab)
              exact ⟨h1.1, (List.cons.inj h1.2).1⟩
            rw [hya] at hya'
            rw [hyb] at hyb'
            obtain rfl := Option.some.inj hya'
            obtain rfl := Option.some.inj hyb'
            rcases hz with hz | hz
            · exact hy0 hz
            · exact hn0 hz
        · push_neg at hz
          constructor
          · intro h
            exact ⟨(Option.some.inj h).symm, a, b, y, n, heq, hya, hyb,
              hz.1, hz.2⟩
          · rintro ⟨rfl, -⟩
            rfl
  next hdef =>
    constructor
    · intro h
      simp at h
    · rintro ⟨-, a', b', y, n, hab, -⟩
      exact (hdef a' b' hab).elim

/-- C6 counterexample: the string "-1:1" has a negative first part, which
the claim says must be rejected with None, yet `parse_initial_odds`
accepts it (Rust `i64` parsing allows a sign) and returns the pools
`(100, 0)`. -/
theorem parse_initial_odds_accepts_negative :
    parse_initial_odds "-1:1" 100 = some (100, 0) := by decide

/-- C6 amended: `parse_initial_odds` accepts a string iff it splits on
`:` into exactly two parts, each a signed 64-bit integer literal
(optional sign, nonempty digit run, in `i64` range) with nonzero value —
so negative ratios are accepted, and positive ones beyond the `i64`
range are rejected — and on every accepted string it returns the pools
`(opening wager, 0)` irrespective of the two ratio values. -/
theorem parse_initial_odds_amended (odds : String) (w : Int) :
    ((parse_initial_odds odds w).isSome ↔
      ∃ p₁ p₂ y n, splitColon odds.data = [p₁, p₂] ∧
        I64Lit p₁ y ∧ I64Lit p₂ n ∧ y ≠ 0 ∧ n ≠ 0) ∧
    (∀ p, parse_initial_odds odds w = some p → p = (w, 0)) := by
  constructor
  · rw [Option.isSome_iff_exists]
    constructor
    · rintro ⟨p, hp⟩
      obtain ⟨-, a, b, y, n, hs, hya, hyb, hy, hn⟩ :=
        (parse_initial_odds_eq_some_iff odds w p).mp hp
      exact ⟨a, b, y, n, hs, (parseI64_eq_some_iff a y).mp hya,
        (parseI64_eq_some_iff b n).mp hyb, hy, hn⟩
    · rintro ⟨a, b, y, n, hs, h1, h2, hy, hn⟩
      exact ⟨(w, 0), (parse_initial_odds_eq_some_iff odds w (w, 0)).mpr
        ⟨rfl, a, b, y, n, hs, (parseI64_eq_some_iff a y).mpr h1,
          (parseI64_eq_some_iff b n).mpr h2, hy, hn⟩⟩
  · exact parse_initial_odds_some odds w

/-- C6 amended witness: "3:1" is accepted via the amended grammar with
parts "3" and "1", and parses to the pools (100, 0). -/
theorem parse_initial_odds_amended_witness :
    (parse_initial_odds "3:1" 100).isSome = true ∧
    parse_initial_odds "3:1" 100 = some (100, 0) := by
  constructor
  · exact (parse_initial_odds_amended "3:1" 100).1.mpr
      ⟨['3'], ['1'], 3, 1, by decide,
        ⟨['3'], by decide, by decide, Or.inl ⟨rfl, by decide⟩, by decide,
          by decide⟩,
        ⟨['1'], by decide, by decide, Or.inl ⟨rfl, by decide⟩, by decide,
          by decide⟩,
        by decide, by decide⟩
  · exact (parse_initial_odds_amended "3:1" 100).2 (100, 0) (by decide) ▸
      (by decide : parse_initial_odds "3:1" 100 = some (100, 0))

/-- Helper: a character passes the custom-code per-character filter of
`create_market` exactly when it is an ASCII uppercase letter or an ASCII
digit (the alphanumeric conjunct is redundant). -/
theorem custom_code_char_iff (c : Char) :
    (isAsciiAlphanumeric c = true ∧
        (isAsciiUppercase c || isAsciiDigit c) = true) ↔
      (('A' ≤ c ∧ c ≤ 'Z') ∨ ('0' ≤ c ∧ c ≤ '9')) := by
  simp only [isAsciiAlphanumeric, isAsciiUppercase, isAsciiLowercase,
    isAsciiDigit, Bool.and_eq_true, Bool.or_eq_true, decide_eq_true_eq]
  tauto

/-- C8 counterexample: the custom code "IO01AB" — six uppercase
alphanumerics including the ambiguous characters I, O, 0, 1 — passes the
`create_market` filter and is used as is, although it is not drawn from
the unambiguous charset the claim requires. -/
theorem custom_code_ok_accepts_ambiguous :
    custom_code_ok "IO01AB" = true ∧
    choose_invite_code (some "IO01AB") "ABC234" = "IO01AB" ∧
    ¬ (∀ c ∈ "IO01AB".data, c ∈ CHARSET) := by
  refine ⟨by decide, by decide, by decide⟩

/-- C8 amended: a caller-supplied custom code is used iff it is exactly 6
bytes, each character an ASCII uppercase letter or digit (the ambiguous
characters I, O, 0, 1 are accepted too); any other custom code is
discarded in favour of the generated one, and generated codes are 6
characters drawn from the unambiguous charset
ABCDEFGHJKLMNPQRSTUVWXYZ23456789. -/
theorem invite_code_selection_spec (code generated : String)
    (pick : Fin 6 → Fin 32) :
    (custom_code_ok code = true ↔
      (utf8Len code.data = 6 ∧ ∀ c ∈ code.data,
        ('A' ≤ c ∧ c ≤ 'Z') ∨ ('0' ≤ c ∧ c ≤ '9'))) ∧
    (custom_code_ok code = true →
      choose_invite_code (some code) generated = code) ∧
    (custom_code_ok code = false →
      choose_invite_code (some code) generated = generated) ∧
    (choose_invite_code none generated = generated) ∧
    ((generate_invite_code pick).data.length = 6 ∧
      ∀ c ∈ (generate_invite_code pick).data, c ∈ CHARSET) := by
  refine ⟨?_, ?_, ?_, rfl, ?_, ?_⟩
  · simp only [custom_code_ok, Bool.and_eq_true, beq_iff_eq,
      List.all_eq_true, custom_code_char_iff]
  · intro h
    simp [choose_invite_code, h]
  · intro h
    simp [choose_invite_code, h]
  · simp [generate_invite_code]
  · intro c hc
    simp only [generate_invite_code, List.mem_map] at hc
    obtain ⟨i, -, rfl⟩ := hc
    exact List.get_mem _ _ _

/-- C8 amended witness: a valid custom code (with ambiguous characters)
is kept, a lowercase one is replaced by the generated code, and a
concrete generated code has 6 characters from the charset. -/
theorem invite_code_selection_spec_witness :
    choose_invite_code (some "AB23CD") "XYZXYZ" = "AB23CD" ∧
    choose_invite_code (some "ab23cd") "XYZXYZ" = "XYZXYZ" ∧
    (generate_invite_code (fun _ => ⟨0, by decide⟩)).data.length = 6 := by
  refine ⟨?_, ?_, ?_⟩
  · exact (invite_code_selection_spec "AB23CD" "XYZXYZ"
      (fun _ => ⟨0, by decide⟩)).2.1 (by decide)
  · exact (invite_code_selection_spec "ab23cd" "XYZXYZ"
      (fun _ => ⟨0, by decide⟩)).2.2.1 (by decide)
  · exact (invite_code_selection_spec "AB23CD" "XYZXYZ"
      (fun _ => ⟨0, by decide⟩)).2.2.2.2.1

/-! ### Parimutuel payout bounds (C2) -/

/-- Helper: a sum of zeros over any key list is zero. -/
theorem sum_map_zero (K : List Nat) : (K.map fun _ => (0 : Int)).sum = 0 := by
  induction K with
  | nil => rfl
  | cons k t ih => simp [ih]

/-- Helper: a sum of ones over a key list counts its length. -/
theorem sum_map_one (K : List Nat) :
    (K.map fun _ => (1 : ℚ)).sum = (K.length : ℚ) := by
  induction K with
  | nil => rfl
  | cons k t ih =>
    rw [List.map_cons, List.sum_cons, ih, List.length_cons]
    push_cast
    ring

/-- Helper: an indicator sum over a list not containing the key is 0. -/
theorem sum_map_indicator_not_mem (a : Nat) (c : Int) :
    ∀ K : List Nat, a ∉ K →
      (K.map fun u => if a = u then c else 0).sum = 0 := by
  intro K
  induction K with
  | nil => intro _; rfl
  | cons k t ih =>
    intro ha
    rw [List.mem_cons, not_or] at ha
    rw [List.map_cons, List.sum_cons, if_neg ha.1, ih ha.2, add_zero]

/-- Helper: an indicator sum over a duplicate-free list containing the
key picks out the value exactly once. -/
theorem sum_map_indicator_mem (a : Nat) (c : Int) :
    ∀ K : List Nat, K.Nodup → a ∈ K →
      (K.map fun u => if a = u then c else 0).sum = c := by
  intro K
  induction K with
  | nil =>
    intro _ ha
    exact absurd ha (List.not_mem_nil a)
  | cons k t ih =>
    intro hK ha
    rw [List.map_cons, List.sum_cons]
    rcases List.mem_cons.mp ha with rfl | hmem
    · rw [if_pos rfl,
        sum_map_indicator_not_mem a c t (List.nodup_cons.mp hK).1, add_zero]
    · have hak : a ≠ k := by
        rintro rfl
        exact (List.nodup_cons.mp hK).1 hmem
      rw [if_neg hak, ih (List.nodup_cons.mp hK).2 hmem, zero_add]

/-- Helper: splitting a contribution over the head wager. -/
theorem userContribution_cons (w : Wager) (t : List Wager) (u : Nat) :
    userContribution (w :: t) u
      = (if w.user_id = u then w.amount else 0) + userContribution t u := by
  unfold userContribution
  rw [List.filter_cons]
  by_cases h : w.user_id = u
  · rw [if_pos (by simpa using h), if_pos h, List.map_cons, List.sum_cons]
  · rw [if_neg (by simpa using h), if_neg h, zero_add]

/-- Helper: over any duplicate-free key list covering every wager's user,
the per-user contributions sum to the total wagered amount. -/
theorem sum_userContribution (K : List Nat) (hK : K.Nodup) :
    ∀ L : List Wager, (∀ w ∈ L, w.user_id ∈ K) →
      (K.map fun u => userContribution L u).sum
        = (L.map fun w => w.amount).sum := by
  intro L
  induction L with
  | nil =>
    intro _
    calc (K.map fun u => userContribution [] u).sum
        = (K.map fun _ => (0 : Int)).sum := rfl
      _ = 0 := sum_map_zero K
      _ = (([] : List Wager).map fun w => w.amount).sum := rfl
  | cons w t ih =>
    intro hmem
    have hw : w.user_id ∈ K := hmem w (List.mem_cons_self _ _)
    have ht : ∀ x ∈ t, x.user_id ∈ K :=
      fun x hx => hmem x (List.mem_cons_of_mem _ hx)
    have hsplit : (K.map fun u => userContribution (w :: t) u).sum
        = (K.map fun u => if w.user_id = u then w.amount else 0).sum
          + (K.map fun u => userContribution t u).sum := by
      simp only [userContribution_cons]
      rw [List.sum_map_add]
    rw [hsplit, sum_map_indicator_mem w.user_id w.amount K hK hw, ih ht,
      List.map_cons, List.sum_cons]

/-- Helper: truncation toward zero agrees with floor on nonnegatives. -/
theorem truncRat_of_nonneg {q : ℚ} (h : 0 ≤ q) : truncRat q = Int.floor q := by
  unfold truncRat
  rw [if_neg (not_lt.mpr h)]

/-- Helper: each user's contribution on the winning side is nonnegative
when every winning-side wager amount is. -/
theorem userContribution_nonneg (L : List Wager) (u : Nat)
    (hamt : ∀ w ∈ L, 0 ≤ w.amount) : 0 ≤ userContribution L u := by
  unfold userContribution
  apply List.sum_nonneg
  intro a ha
  obtain ⟨w, hw, rfl⟩ := List.mem_map.mp ha
  exact hamt w (List.mem_of_mem_filter hw)

/-- Core payout bound: for a fixed winning side with positive pool,
nonnegative pools, nonnegative winning-side amounts, and winning-side
amounts summing exactly to the winning pool, the payouts sum to at most
the total pool, and the shortfall is at most the number of distinct
winning users. -/
theorem calcPayoutsFor_sum_bounds (ws : Side) (bet : Bet)
    (wagers : List Wager)
    (hyes : 0 ≤ bet.yes_pool) (hno : 0 ≤ bet.no_pool)
    (hpos : 0 < winningPool ws bet)
    (hamt : ∀ w ∈ winningWagers wagers ws, 0 ≤ w.amount)
    (hsum : ((winningWagers wagers ws).map fun w => w.amount).sum
      = winningPool ws bet) :
    ((calcPayoutsFor ws bet wagers).map Prod.snd).sum
        ≤ bet.yes_pool + bet.no_pool ∧
    bet.yes_pool + bet.no_pool
        - ((calcPayoutsFor ws bet wagers).map Prod.snd).sum
      ≤ ((((winningWagers wagers ws).map fun w => w.user_id).dedup).length
          : Int) := by
  have hW : (0 : ℚ) < (winningPool ws bet : ℚ) := by exact_mod_cast hpos
  have hT : (0 : ℚ) ≤ ((bet.yes_pool + bet.no_pool : Int) : ℚ) := by
    have : (0 : Int) ≤ bet.yes_pool + bet.no_pool := by omega
    exact_mod_cast this
  have hcp : calcPayoutsFor ws bet wagers
      = (((winningWagers wagers ws).map fun w => w.user_id).dedup).map
        (fun u =>
          (u, truncRat ((userContribution (winningWagers wagers ws) u : ℚ)
            / (winningPool ws bet : ℚ)
            * ((bet.yes_pool + bet.no_pool : Int) : ℚ)))) := by
    unfold calcPayoutsFor
    rw [if_neg hpos.ne']
  have hx : ∀ u, (0 : ℚ) ≤ (userContribution (winningWagers wagers ws) u : ℚ)
      / (winningPool ws bet : ℚ)
      * ((bet.yes_pool + bet.no_pool : Int) : ℚ) := by
    intro u
    apply mul_nonneg (div_nonneg _ hW.le) hT
    exact_mod_cast userContribution_nonneg _ u hamt
  have hKnodup : (((winningWagers wagers ws).map fun w => w.user_id).dedup).Nodup :=
    List.nodup_dedup _
  have hKcover : ∀ w ∈ winningWagers wagers ws,
      w.user_id ∈ ((winningWagers wagers ws).map fun w => w.user_id).dedup := by
    intro w hw
    exact List.mem_dedup.mpr (List.mem_map_of_mem _ hw)
  have hcontrib : ((((winningWagers wagers ws).map fun w => w.user_id).dedup).map
      fun u => userContribution (winningWagers wagers ws) u).sum
        = winningPool ws bet := by
    rw [sum_userContribution _ hKnodup _ hKcover, hsum]
  have hsnd : ((calcPayoutsFor ws bet wagers).map Prod.snd).sum
      = ((((winningWagers wagers ws).map fun w => w.user_id).dedup).map
        (fun u => truncRat ((userContribution (winningWagers wagers ws) u : ℚ)
          / (winningPool ws bet : ℚ)
          * ((bet.yes_pool + bet.no_pool : Int) : ℚ)))).sum := by
    rw [hcp, List.map_map]
    rfl
  have hxsum : ((((winningWagers wagers ws).map fun w => w.user_id).dedup).map
      fun u => (userContribution (winningWagers wagers ws) u : ℚ)
        / (winningPool ws bet : ℚ)
        * ((bet.yes_pool + bet.no_pool : Int) : ℚ)).sum
      = ((bet.yes_pool + bet.no_pool : Int) : ℚ) := by
    have hfac : ∀ u : Nat,
        (userContribution (winningWagers wagers ws) u : ℚ)
          / (winningPool ws bet : ℚ)
          * ((bet.yes_pool + bet.no_pool : Int) : ℚ)
        = (userContribution (winningWagers wagers ws) u : ℚ)
          * (((bet.yes_pool + bet.no_pool : Int) : ℚ)
            / (winningPool ws bet : ℚ)) := by
      intro u
      ring
    simp only [hfac]
    rw [List.sum_map_mul_right]
    have hcast : ((((winningWagers wagers ws).map fun w => w.user_id).dedup).map
        fun u => (userContribution (winningWagers wagers ws) u : ℚ)).sum
        = ((winningPool ws bet : Int) : ℚ) := by
      have h1 : (((((winningWagers wagers ws).map fun w => w.user_id).dedup).map
            fun u => userContribution (winningWagers wagers ws) u).sum : ℚ)
          = (((((winningWagers wagers ws).map fun w => w.user_id).dedup).map
            fun u => userContribution (winningWagers wagers ws) u).map
              fun x : Int => (x : ℚ)).sum :=
        Int.cast_list_sum _
      rw [hcontrib] at h1
      rw [List.map_map] at h1
      exact h1.symm
    rw [hcast, mul_comm]
    exact div_mul_cancel₀ _ hW.ne'
  constructor
  · have hq : (((calcPayoutsFor ws bet wagers).map Prod.snd).sum : ℚ)
        ≤ ((bet.yes_pool + bet.no_pool : Int) : ℚ) := by
      rw [hsnd]
      have h1 : (((((winningWagers wagers ws).map fun w => w.user_id).dedup).map
            (fun u => truncRat ((userContribution (winningWagers wagers ws) u : ℚ)
              / (winningPool ws bet : ℚ)
              * ((bet.yes_pool + bet.no_pool : Int) : ℚ)))).sum : ℚ)
          = (((((winningWagers wagers ws).map fun w => w.user_id).dedup).map
            (fun u => truncRat ((userContribution (winningWagers wagers ws) u : ℚ)
              / (winningPool ws bet : ℚ)
              * ((bet.yes_pool + bet.no_pool : Int) : ℚ)))).map
              fun x : Int => (x : ℚ)).sum :=
        Int.cast_list_sum _
      rw [h1, List.map_map]
      calc ((((winningWagers wagers ws).map fun w => w.user_id).dedup).map
            ((fun x : Int => (x : ℚ)) ∘ fun u => truncRat
              ((userContribution (winningWagers wagers ws) u : ℚ)
                / (winningPool ws bet : ℚ)
                * ((bet.yes_pool + bet.no_pool : Int) : ℚ)))).sum
          ≤ ((((winningWagers wagers ws).map fun w => w.user_id).dedup).map
            fun u => (userContribution (winningWagers wagers ws) u : ℚ)
              / (winningPool ws bet : ℚ)
              * ((bet.yes_pool + bet.no_pool : Int) : ℚ)).sum := by
            apply List.sum_le_sum
            intro u _
            show ((truncRat _ : Int) : ℚ) ≤ _
            rw [truncRat_of_nonneg (hx u)]
            exact Int.floor_le _
        _ = ((bet.yes_pool + bet.no_pool : Int) : ℚ) := hxsum
    exact_mod_cast hq
  · have hq : ((bet.yes_pool + bet.no_pool : Int) : ℚ)
        ≤ (((calcPayoutsFor ws bet wagers).map Prod.snd).sum : ℚ)
          + ((((winningWagers wagers ws).map fun w => w.user_id).dedup).length
            : ℚ) := by
      rw [hsnd]
      have h1 : (((((winningWagers wagers ws).map fun w => w.user_id).dedup).map
            (fun u => truncRat ((userContribution (winningWagers wagers ws) u : ℚ)
              / (winningPool ws bet : ℚ)
              * ((bet.yes_pool + bet.no_pool : Int) : ℚ)))).sum : ℚ)
          = (((((winningWagers wagers ws).map fun w => w.user_id).dedup).map
            (fun u => truncRat ((userContribution (winningWagers wagers ws) u : ℚ)
              / (winningPool ws bet : ℚ)
              * ((bet.yes_pool + bet.no_pool : Int) : ℚ)))).map
              fun x : Int => (x : ℚ)).sum :=
        Int.cast_list_sum _
      rw [h1, List.map_map]
      calc ((bet.yes_pool + bet.no_pool : Int) : ℚ)
          = ((((winningWagers wagers ws).map fun w => w.user_id).dedup).map
            fun u => (userContribution (winningWagers wagers ws) u : ℚ)
              / (winningPool ws bet : ℚ)
              * ((bet.yes_pool + bet.no_pool : Int) : ℚ)).sum := hxsum.symm
        _ ≤ ((((winningWagers wagers ws).map fun w => w.user_id).dedup).map
            fun u => ((truncRat ((userContribution (winningWagers wagers ws) u : ℚ)
              / (winningPool ws bet : ℚ)
              * ((bet.yes_pool + bet.no_pool : Int) : ℚ)) : Int) : ℚ) + 1).sum := by
            apply List.sum_le_sum
            intro u _
            have hfl := Int.lt_floor_add_one
              ((userContribution (winningWagers wagers ws) u : ℚ)
                / (winningPool ws bet : ℚ)
                * ((bet.yes_pool + bet.no_pool : Int) : ℚ))
            rw [← truncRat_of_nonneg (hx u)] at hfl
            exact_mod_cast hfl.le
        _ = ((((winningWagers wagers ws).map fun w => w.user_id).dedup).map
            ((fun x : Int => (x : ℚ)) ∘ fun u => truncRat
              ((userContribution (winningWagers wagers ws) u : ℚ)
                / (winningPool ws bet : ℚ)
                * ((bet.yes_pool + bet.no_pool : Int) : ℚ)))).sum
            + ((((winningWagers wagers ws).map fun w => w.user_id).dedup).length
              : ℚ) := by
            rw [← sum_map_one
              (((winningWagers wagers ws).map fun w => w.user_id).dedup),
              ← List.sum_map_add]
            rfl
    have hq2 : (bet.yes_pool + bet.no_pool : Int)
        ≤ ((calcPayoutsFor ws bet wagers).map Prod.snd).sum
          + ((((winningWagers wagers ws).map fun w => w.user_id).dedup).length
            : Int) := by
      exact_mod_cast hq
    omega

/-- C2 (amended): the payout-sum bounds for `calculate_payouts`. -/
theorem calculate_payouts_sum_bounds (bet : Bet) (wagers : List Wager)
    (ws : Side)
    (hws : (bet.status = BetStatus.ResolvedYes ∧ ws = Side.Yes) ∨
      (bet.status = BetStatus.ResolvedNo ∧ ws = Side.No))
    (hyes : 0 ≤ bet.yes_pool) (hno : 0 ≤ bet.no_pool)
    (hpos : 0 < winningPool ws bet)
    (hamt : ∀ w ∈ winningWagers wagers ws, 0 ≤ w.amount)
    (hsum : ((winningWagers wagers ws).map fun w => w.amount).sum
      = winningPool ws bet) :
    ((calculate_payouts bet wagers).map Prod.snd).sum
        ≤ bet.yes_pool + bet.no_pool ∧
    bet.yes_pool + bet.no_pool
        - ((calculate_payouts bet wagers).map Prod.snd).sum
      ≤ ((((winningWagers wagers ws).map fun w => w.user_id).dedup).length
          : Int) := by
  have hcp : calculate_payouts bet wagers = calcPayoutsFor ws bet wagers := by
    rcases hws with ⟨hst, rfl⟩ | ⟨hst, rfl⟩ <;> simp [calculate_payouts, hst]
  rw [hcp]
  exact calcPayoutsFor_sum_bounds ws bet wagers hyes hno hpos hamt hsum

/-- A resolved-YES bet fixture with pools (2, 1). -/
def betR : Bet :=
  { bet0 with
    id := 5
    status := BetStatus.ResolvedYes
    yes_pool := 2
    no_pool := 1 }

/-- A wager fixture for user `u` on side `s` with amount `amt`. -/
def mkWager (u : Nat) (s : Side) (amt : Int) : Wager :=
  { id := 100 + u, bet_id := 5, user_id := u, side := s, amount := amt,
    placed_at := 0, yes_pool_after := 0, no_pool_after := 0,
    probability_after := 0 }

/-- Two unit YES wagers by distinct users (sums to the YES pool of 2). -/
def wagersR : List Wager := [mkWager 1 Side.Yes 1, mkWager 2 Side.Yes 1]

/-- C2 witness: on the resolved bet with pools (2, 1) and two unit YES
wagers, the payout sum is at most 3 and the shortfall at most 2. -/
theorem calculate_payouts_sum_bounds_witness :
    ((calculate_payouts betR wagersR).map Prod.snd).sum ≤ 3 ∧
    3 - ((calculate_payouts betR wagersR).map Prod.snd).sum ≤ 2 := by
  have h := calculate_payouts_sum_bounds betR wagersR Side.Yes
    (Or.inl ⟨rfl, rfl⟩) (by decide) (by decide) (by decide) (by decide)
    (by decide)
  exact ⟨h.1, h.2⟩

/-- YES wagers of users 1, 2, 3 with amounts 4, -1, -1: they sum to the
YES pool of 2, but the amounts are not all nonnegative. -/
def wagersNeg : List Wager :=
  [mkWager 1 Side.Yes 4, mkWager 2 Side.Yes (-1), mkWager 3 Side.Yes (-1)]

/-- Helper evaluations of the three truncated payout shares arising from
`wagersNeg` on `betR`. -/
theorem truncRat_wagersNeg_vals :
    truncRat (((4 : Int) : ℚ) / ((2 : Int) : ℚ) * ((3 : Int) : ℚ)) = 6 ∧
    truncRat (((-1 : Int) : ℚ) / ((2 : Int) : ℚ) * ((3 : Int) : ℚ)) = -1 := by
  constructor
  · rw [truncRat, if_neg (by norm_num),
      show ((4 : Int) : ℚ) / ((2 : Int) : ℚ) * ((3 : Int) : ℚ)
        = ((6 : Int) : ℚ) by norm_num]
    exact Int.floor_intCast 6
  · rw [truncRat, if_pos (by norm_num)]
    norm_num

/-- C2 counterexample: on the resolved bet with pools (2, 1) whose
winning-side wagers (amounts 4, -1, -1 — the claim does not rule out
negative amounts) sum exactly to the positive winning pool, the payouts
are 6, -1, -1: their sum 4 exceeds the total pool 3, refuting the claim
as stated. -/
theorem calculate_payouts_sum_exceeds_pool :
    betR.status = BetStatus.ResolvedYes ∧
    0 < winningPool Side.Yes betR ∧
    ((winningWagers wagersNeg Side.Yes).map fun w => w.amount).sum
      = winningPool Side.Yes betR ∧
    ((calculate_payouts betR wagersNeg).map Prod.snd).sum = 4 ∧
    ¬ (((calculate_payouts betR wagersNeg).map Prod.snd).sum
        ≤ betR.yes_pool + betR.no_pool) := by
  have hsum4 : ((calculate_payouts betR wagersNeg).map Prod.snd).sum = 4 := by
    have hlist : calculate_payouts betR wagersNeg
        = [(1, truncRat (((4 : Int) : ℚ) / ((2 : Int) : ℚ) * ((3 : Int) : ℚ))),
           (2, truncRat (((-1 : Int) : ℚ) / ((2 : Int) : ℚ) * ((3 : Int) : ℚ))),
           (3, truncRat (((-1 : Int) : ℚ) / ((2 : Int) : ℚ) * ((3 : Int) : ℚ)))] := by
      show calcPayoutsFor Side.Yes betR wagersNeg = _
      rw [calcPayoutsFor, if_neg (by decide)]
      rfl
    rw [hlist]
    rw [List.map_cons, List.map_cons, List.map_cons, List.map_nil]
    rw [List.sum_cons, List.sum_cons, List.sum_cons, List.sum_nil]
    rw [truncRat_wagersNeg_vals.1, truncRat_wagersNeg_vals.2]
    decide
  refine ⟨rfl, by decide, by decide, hsum4, ?_⟩
  rw [hsum4]
  decide

end Cazino
